import Mathlib

/-!
Verification of the codemodder-python codemod execution pipeline.

Shallow embedding of the core sources:
- codemodder/codemods (registry selection, match_codemods)
- src/codemodder/codemods/base_codemod.py (Metadata, BaseCodemod, _apply,
  _process_file, description resolution)
- src/codemodder/codemods/transformations/remove_empty_string_concatenation.py
- src/codemodder/cli.py (CLIArgs defaults)

Collaborators whose bodies are not part of the shown sources (context.py,
file_context.py, result.py, code_directory.py, base_detector.py,
base_transformer.py) are modelled from the spec; their doc comments say so
explicitly.  Python thread-pool fan-out is embedded by making the
nondeterministic completion order an explicit `schedule` parameter: tasks are
computed in schedule order into an index-addressed slot store and joined in
input-list order, exactly the semantics of `ThreadPoolExecutor.map`.
-/

namespace Codemodder

/-- METADATA attribute of a registered codemod class; the registry consults
only its NAME field. -/
structure CodemodClassMetadata where
  NAME : String
  deriving DecidableEq, Repr

/-- A codemod class as seen by the registry module
(codemodder/codemods, top-level registry file). -/
structure RegisteredCodemod where
  METADATA : CodemodClassMetadata
  deriving DecidableEq, Repr

/-- Registry selection, `match_codemods(codemod_include, codemod_exclude)`.
The Python function builds a dict keyed by `METADATA.NAME` from the
`DEFAULT_CODEMODS` set; we return the corresponding association list.  The
`assert codemod_include or codemod_exclude` in the source sits after the
both-empty early return, so it can never fire and the function is total. -/
def match_codemods (DEFAULT_CODEMODS : List RegisteredCodemod)
    (codemod_include : List String) (codemod_exclude : List String) :
    List (String × RegisteredCodemod) :=
  if codemod_include.isEmpty && codemod_exclude.isEmpty then
    DEFAULT_CODEMODS.map (fun codemod => (codemod.METADATA.NAME, codemod))
  else if !codemod_exclude.isEmpty then
    (DEFAULT_CODEMODS.filter
        (fun codemod => !codemod_exclude.contains codemod.METADATA.NAME)).map
      (fun codemod => (codemod.METADATA.NAME, codemod))
  else
    (DEFAULT_CODEMODS.filter
        (fun codemod => codemod_include.contains codemod.METADATA.NAME)).map
      (fun codemod => (codemod.METADATA.NAME, codemod))

/-- A file path, carrying the pieces the pipeline consults: `pathlib.Path`
is only ever asked for its extension (`.suffix`). -/
structure Path where
  stem : String
  suffix : String
  deriving DecidableEq, Repr

/-- A normalized finding (rule id, 1-based location), per spec section 3.
Produced externally, immutable. -/
structure Finding where
  rule_id : String
  line : Nat
  deriving DecidableEq, Repr

/-- A change produced by a transformer: unified diff text, changed-line
count, human description (spec section 3; codetf.py is not in src). -/
structure ChangeSet where
  diff : String
  linesChanged : Nat
  changeDescription : String
  deriving DecidableEq, Repr

/-- Modelled from the spec: FileContext, the per (codemod, file) execution
unit state (file_context.py is not in src): root directory, file path,
line excludes/includes, the findings applicable to this file (or none), the
accumulated ChangeSet results and failure notes. -/
structure FileContext where
  directory : Path
  file_path : Path
  line_exclude : List Nat
  line_include : List Nat
  findings : Option (List Finding)
  results : List ChangeSet := []
  failures : List String := []

/-- Modelled from the spec: FileContext.add_result appends one ChangeSet to
the accumulating result list. -/
def FileContext.add_result (self : FileContext) (change_set : ChangeSet) :
    FileContext :=
  { self with results := self.results ++ [change_set] }

/-- Modelled from the spec: one include/exclude glob pattern together with
the line qualifiers of the `path:line` / `path:start-end` syntax
(code_directory.py is not in src). -/
structure PathPattern where
  path : Path
  lines : List Nat
  deriving DecidableEq, Repr

/-- Modelled from the spec: `file_line_patterns(filename, patterns)` computes
the line numbers singled out by the patterns that address this file
(code_directory.py is not in src). -/
def file_line_patterns (filename : Path) (patterns : List PathPattern) :
    List Nat :=
  ((patterns.filter (fun pattern => pattern.path = filename)).map
    (fun pattern => pattern.lines)).flatten

/-- Modelled from the spec: the ExecutionContext (context.py is not in src):
target directory, dry-run flag, concurrency limit with default 1, path
include/exclude lists, and the Aggregator.  The Aggregator is kept as the
ordered list of writes (codemod id, outcome list) so that write-once claims
are expressible. -/
structure CodemodExecutionContext where
  directory : Path
  dry_run : Bool := false
  max_workers : Nat := 1
  path_include : List PathPattern := []
  path_exclude : List PathPattern := []
  aggregator : List (String × List FileContext) := []

/-- Modelled from the spec: `process_results(id, results)` records the full
outcome list for one codemod in the Aggregator under the codemod id; it is
called exactly once per codemod, by the orchestrator, after the fan-out has
joined. -/
def CodemodExecutionContext.process_results (context : CodemodExecutionContext)
    (id : String) (results : List FileContext) : CodemodExecutionContext :=
  { context with aggregator := context.aggregator ++ [(id, results)] }

/-- The ExecutionContext with only its concurrency limit replaced, used to
compare runs under different `max_workers` settings. -/
def CodemodExecutionContext.withMaxWorkers (context : CodemodExecutionContext)
    (workers : Nat) : CodemodExecutionContext :=
  { context with max_workers := workers }

/-- Modelled from the spec: the ResultIndex, a read-only mapping from
(rule id, file path) to the ordered sequence of Findings for that pair
(result.py is not in src; only this interface is used by base_codemod.py). -/
structure ResultSet where
  lookup : String → Path → List Finding

/-- Modelled from the spec: `results_for_rule_and_file(context, rule, file)`
returns the stored ordered Findings for the (rule, file) pair. -/
def ResultSet.results_for_rule_and_file (results : ResultSet)
    (context : CodemodExecutionContext) (rule : String) (file : Path) :
    List Finding :=
  results.lookup rule file

/-- Modelled from the spec: the Detector Contract,
`apply(rule_name, context, file_list) -> ResultIndex`
(base_detector.py is not in src). -/
structure BaseDetector where
  apply : String → CodemodExecutionContext → List Path → ResultSet

/-- Modelled from the spec: the Transformer pipeline
(base_transformer.py is not in src).  Its inner rewrite step may fault;
per spec section 7 a per-file transform failure is recovered at the
execution-unit boundary, yielding no ChangeSet plus a failure note. -/
structure BaseTransformerPipeline where
  run : CodemodExecutionContext → FileContext → Option (List Finding) →
    Except String (Option ChangeSet)

/-- Modelled from the spec: pipeline application with fault recovery.
Returns the optional ChangeSet together with the failure notes attached to
the file context (empty on success). -/
def BaseTransformerPipeline.apply (self : BaseTransformerPipeline)
    (context : CodemodExecutionContext) (file_context : FileContext)
    (findings : Option (List Finding)) : Option ChangeSet × List String :=
  match self.run context file_context findings with
  | Except.ok change_set => (change_set, [])
  | Except.error msg => (none, [msg])

/-- ReviewGuidance enum (base_codemod.py). -/
inductive ReviewGuidance where
  | MERGE_AFTER_REVIEW
  | MERGE_AFTER_CURSORY_REVIEW
  | MERGE_WITHOUT_REVIEW
  deriving DecidableEq, Repr

/-- A documentation reference (codetf.py is not in src; only the shape is
needed). -/
structure Reference where
  url : String
  label : String := ""
  deriving DecidableEq, Repr

/-- ToolMetadata dataclass (base_codemod.py). -/
structure ToolMetadata where
  name : String
  rule_id : String
  rule_name : String
  rule_url : Option String := none
  deriving DecidableEq, Repr

/-- Metadata dataclass (base_codemod.py): name, summary, review guidance,
references, optional inline description, optional tool metadata, language
tag defaulting to "python". -/
structure Metadata where
  name : String
  summary : String
  review_guidance : ReviewGuidance
  references : List Reference := []
  description : Option String := none
  tool : Option ToolMetadata := none
  language : String := "python"

/-- BaseCodemod (base_codemod.py): origin and docs module path are abstract
properties supplied by each concrete subclass; the rest is the constructor
state. -/
structure BaseCodemod where
  origin : String
  docs_module_path : String
  _metadata : Metadata
  detector : Option BaseDetector := none
  transformer : BaseTransformerPipeline
  default_extensions : List String

/-- BaseCodemod constructor: `default_extensions or [".py"]` makes a missing
or empty extension list default to the single extension ".py". -/
def BaseCodemod.init (origin : String) (docs_module_path : String)
    (metadata : Metadata) (detector : Option BaseDetector)
    (transformer : BaseTransformerPipeline)
    (default_extensions : Option (List String)) : BaseCodemod :=
  { origin := origin
    docs_module_path := docs_module_path
    _metadata := metadata
    detector := detector
    transformer := transformer
    default_extensions :=
      match default_extensions with
      | none => [".py"]
      | some [] => [".py"]
      | some exts => exts }

/-- name property. -/
def BaseCodemod.name (self : BaseCodemod) : String :=
  self._metadata.name

/-- language property. -/
def BaseCodemod.language (self : BaseCodemod) : String :=
  self._metadata.language

/-- summary property. -/
def BaseCodemod.summary (self : BaseCodemod) : String :=
  self._metadata.summary

/-- Codemod identity string: `origin:language/name`. -/
def BaseCodemod.id (self : BaseCodemod) : String :=
  self.origin ++ ":" ++ self.language ++ "/" ++ self.name

/-- BaseCodemod with only its metadata language tag replaced, used to state
that description resolution never consults the language. -/
def BaseCodemod.withLanguage (self : BaseCodemod) (language : String) :
    BaseCodemod :=
  { self with _metadata := { self._metadata with language := language } }

/-- The resource environment backing importlib.resources: maps a docs module
path and a file name inside it to the text of that documentation file. -/
def DocsResources : Type :=
  String → String → String

/-- Description resolution (base_codemod.py, `description`):
if the inline metadata description is None, read the documentation resource
named with the literal segment "python", `origin_python_name.md`; otherwise
return the inline description. -/
def BaseCodemod.description_value (self : BaseCodemod) (res : DocsResources) :
    String :=
  match self._metadata.description with
  | none => res self.docs_module_path
      (self.origin ++ "_python_" ++ self.name ++ ".md")
  | some d => d

/-- The cache cell behind `functools.cached_property` for `description`,
together with a count of documentation-resource reads performed. -/
structure DescriptionCache where
  cached : Option String := none
  resource_reads : Nat := 0

/-- One access to the memoized `description` property: return the cached
value if present, otherwise compute it (reading the resource exactly when
the inline description is absent) and store it. -/
def BaseCodemod.description_access (self : BaseCodemod) (res : DocsResources)
    (st : DescriptionCache) : String × DescriptionCache :=
  match st.cached with
  | some v => (v, st)
  | none =>
    let v := self.description_value res
    let reads :=
      match self._metadata.description with
      | none => st.resource_reads + 1
      | some _ => st.resource_reads
    (v, { cached := some v, resource_reads := reads })

/-- File Execution Unit, `_process_file(filename, context, results, rules)`
(base_codemod.py): compute the line filters, gather findings per rule in
rule order when a ResultIndex exists, build the FileContext, run the
transformer pipeline, attach the ChangeSet when one is produced, and return
the FileContext unconditionally. -/
def BaseCodemod._process_file (self : BaseCodemod) (filename : Path)
    (context : CodemodExecutionContext) (results : Option ResultSet)
    (rules : List String) : FileContext :=
  let line_exclude := file_line_patterns filename context.path_exclude
  let line_include := file_line_patterns filename context.path_include
  let findings_for_rule : Option (List Finding) :=
    match results with
    | none => none
    | some rs =>
      some (rules.foldl
        (fun findings rule =>
          findings ++ rs.results_for_rule_and_file context rule filename)
        [])
  let file_context : FileContext :=
    { directory := context.directory
      file_path := filename
      line_exclude := line_exclude
      line_include := line_include
      findings := findings_for_rule }
  match self.transformer.apply context file_context findings_for_rule with
  | (some change_set, notes) =>
    ({ file_context with failures := file_context.failures ++ notes
      }).add_result change_set
  | (none, notes) =>
    { file_context with failures := file_context.failures ++ notes }

/-- One completion step of the worker pool: task `i` (when it addresses a
real file) writes its result into slot `i` of the index-addressed slot
store. -/
def slotWrite (f : Path → FileContext) (files : List Path)
    (slots : Nat → Option FileContext) (i : Nat) : Nat → Option FileContext :=
  match files[i]? with
  | some file => Function.update slots i (some (f file))
  | none => slots

/-- The slot store after the pool has drained: tasks complete in `schedule`
order, each filling its own input-indexed slot. -/
def executorSlots (f : Path → FileContext) (files : List Path)
    (schedule : List Nat) : Nat → Option FileContext :=
  schedule.foldl (slotWrite f files) (fun _ => none)

/-- `ThreadPoolExecutor.map` semantics: results are joined in input-list
order, reading the slot store positionally, regardless of the completion
schedule. -/
def executorMap (f : Path → FileContext) (files : List Path)
    (schedule : List Nat) : List FileContext :=
  (List.range files.length).filterMap (executorSlots f files schedule)

/-- The extension filter of `_apply` (base_codemod.py): keep the files whose
suffix is among the codemod's extensions; a falsy (empty) extension list
skips filtering. -/
def BaseCodemod.filteredFiles (self : BaseCodemod)
    (files_to_analyze : List Path) : List Path :=
  if self.default_extensions.isEmpty then files_to_analyze
  else files_to_analyze.filter
    (fun path => self.default_extensions.contains path.suffix)

/-- The detector stage of `_apply`: run the detector once when present,
otherwise no ResultIndex. -/
def BaseCodemod.detectorResults (self : BaseCodemod)
    (context : CodemodExecutionContext) (files_to_analyze : List Path) :
    Option ResultSet :=
  match self.detector with
  | some detector => some (detector.apply self.name context files_to_analyze)
  | none => none

/-- The joined outcome list of one codemod application: the File Execution
Unit fanned out over the extension-filtered files under a completion
schedule, joined in input order. -/
def BaseCodemod.applyOutcomes (self : BaseCodemod)
    (context : CodemodExecutionContext) (files_to_analyze : List Path)
    (rules : List String) (schedule : List Nat) : List FileContext :=
  executorMap
    (fun filename => self._process_file filename context
      (self.detectorResults context files_to_analyze) rules)
    (self.filteredFiles files_to_analyze) schedule

/-- `_apply` (base_codemod.py): detector once, extension filter, pool
fan-out, then—after the pool has fully joined—exactly one Aggregator write
under the codemod id. -/
def BaseCodemod._apply (self : BaseCodemod)
    (context : CodemodExecutionContext) (files_to_analyze : List Path)
    (rules : List String) (schedule : List Nat) : CodemodExecutionContext :=
  context.process_results self.id
    (self.applyOutcomes context files_to_analyze rules schedule)

/-- `apply` (base_codemod.py): `_apply` with the codemod's own name as the
single rule. -/
def BaseCodemod.apply (self : BaseCodemod)
    (context : CodemodExecutionContext) (files_to_analyze : List Path)
    (schedule : List Nat) : CodemodExecutionContext :=
  self._apply context files_to_analyze [self.name] schedule

/-- Who performs an observable step of `_apply`: a pool worker executing
task `i`, or the orchestrator thread itself. -/
inductive Emitter where
  | worker (task : Nat)
  | orchestrator
  deriving DecidableEq, Repr

/-- Observable events of one `_apply` invocation. -/
inductive ApplyEvent where
  | fileProcessed (emitter : Emitter) (file : Path)
  | aggregatorWrite (emitter : Emitter) (key : String)

/-- Whether an event is an Aggregator write. -/
def ApplyEvent.isAggregatorWrite : ApplyEvent → Bool
  | ApplyEvent.aggregatorWrite _ _ => true
  | _ => false

/-- The event trace of `_apply`: per-file work happens on workers in
completion order inside the pool; the single Aggregator write is performed
by the orchestrator after the `with` block has joined the pool
(`executor.shutdown(wait=True)`). -/
def BaseCodemod.applyTrace (self : BaseCodemod)
    (context : CodemodExecutionContext) (files_to_analyze : List Path)
    (rules : List String) (schedule : List Nat) : List ApplyEvent :=
  (schedule.filterMap (fun i =>
    ((self.filteredFiles files_to_analyze)[i]?).map
      (fun file => ApplyEvent.fileProcessed (Emitter.worker i) file)))
  ++ [ApplyEvent.aggregatorWrite Emitter.orchestrator self.id]

/-- Worker count of a Python `ThreadPoolExecutor`: the `max_workers`
argument when given, else the library default `min(32, os.cpu_count() + 4)`. -/
def threadPoolExecutorWorkers (max_workers : Option Nat) (os_cpu_count : Nat) :
    Nat :=
  match max_workers with
  | some n => n
  | none => min 32 (os_cpu_count + 4)

/-- The pool size `_apply` actually creates: the source constructs
`ThreadPoolExecutor()` with no argument, so the context's `max_workers`
setting is never passed to the pool. -/
def BaseCodemod.applyPoolSize (self : BaseCodemod)
    (context : CodemodExecutionContext) (os_cpu_count : Nat) : Nat :=
  threadPoolExecutorWorkers none os_cpu_count

/-- CLI argument defaults (cli.py): `max_workers` is declared with default
value 1. -/
structure CLIArgs where
  max_workers : Nat := 1
  dry_run : Bool := false
  verbose : Bool := false

/-- The binary operator of a libcst BinaryOperation node.  handle_node never
inspects it. -/
inductive BinaryOperator where
  | Add
  | Subtract
  | Multiply
  | Divide
  | FloorDivide
  | Modulo
  | Power
  | LeftShift
  | RightShift
  | BitOr
  | BitAnd
  | BitXor
  | MatrixMultiply
  deriving DecidableEq, Repr

/-- The fragment of the libcst expression tree that
remove_empty_string_concatenation.py dispatches on: SimpleString carries its
source text (quotes and string prefix included), the two node kinds the
transformer rewrites carry their operands, and the remaining expression
kinds are opaque. -/
inductive CSTExpr where
  | simpleString (value : String)
  | formattedString (parts : List String)
  | nameExpr (value : String)
  | integer (value : Nat)
  | binaryOperation (left : CSTExpr) (operator : BinaryOperator)
      (right : CSTExpr)
  | concatenatedString (left : CSTExpr) (right : CSTExpr)
  deriving DecidableEq, Repr

/-- The single-quote character, written by code point to keep source text
plain. -/
def singleQuoteChar : Char :=
  Char.ofNat 39

/-- The double-quote character, written by code point. -/
def doubleQuoteChar : Char :=
  Char.ofNat 34

/-- Whether a character is one of the two Python quote characters. -/
def isQuoteChar (c : Char) : Bool :=
  c = singleQuoteChar || c = doubleQuoteChar

/-- The source text of the literal the transformer produces for
empty-plus-empty: two double quotes. -/
def emptyStringLiteral : String :=
  String.mk [doubleQuoteChar, doubleQuoteChar]

/-- libcst SimpleString.prefix: everything before the first quote
character. -/
def simpleStringPfx (cs : List Char) : List Char :=
  cs.takeWhile (fun c => !isQuoteChar c)

/-- libcst SimpleString.quote: the run of identical quote characters opening
the literal; a run of 2 means an empty one-quoted string (quote length 1)
and a run of 6 an empty triple-quoted string (quote length 3). -/
def simpleStringQuoteLen (cs : List Char) : Nat :=
  match cs with
  | [] => 0
  | c :: _ =>
    if isQuoteChar c then
      let run := (cs.takeWhile (fun d => d = c)).length
      if run = 2 then 1 else if run = 6 then 3 else run
    else 0

/-- libcst SimpleString.raw_value: the source text with the string prefix
and the surrounding quotes stripped. -/
def rawValue (value : String) : String :=
  let cs := value.toList
  let pfx := simpleStringPfx cs
  let rest := cs.drop pfx.length
  let quote := simpleStringQuoteLen rest
  let body := rest.drop quote
  String.mk (body.take (body.length - quote))

/-- The guard used twice per operand in handle_node:
`case cst.SimpleString() if node.raw_value == ""`. -/
def isEmptySimpleString : CSTExpr → Bool
  | CSTExpr.simpleString value => rawValue value == ""
  | _ => false

/-- The shared body of handle_node over the extracted left/right operands:
two sequential Python match statements, the first returning whenever the
left operand is an empty SimpleString, the second whenever the right one
is; otherwise the node is returned unchanged. -/
def handleLR (updated_node left right : CSTExpr) : CSTExpr :=
  if isEmptySimpleString left then
    if isEmptySimpleString right then CSTExpr.simpleString emptyStringLiteral
    else right
  else if isEmptySimpleString right then
    if isEmptySimpleString left then CSTExpr.simpleString emptyStringLiteral
    else left
  else updated_node

/-- RemoveEmptyStringConcatenation.handle_node
(remove_empty_string_concatenation.py): dispatch on the two node kinds that
own a left and a right operand; the binary operator is never consulted. -/
def RemoveEmptyStringConcatenation.handle_node (updated_node : CSTExpr) :
    CSTExpr :=
  match updated_node with
  | CSTExpr.binaryOperation left _ right => handleLR updated_node left right
  | CSTExpr.concatenatedString left right => handleLR updated_node left right
  | other => other

/-- leave_BinaryOperation delegates to handle_node on the updated node. -/
def RemoveEmptyStringConcatenation.leave_BinaryOperation
    (original_node updated_node : CSTExpr) : CSTExpr :=
  RemoveEmptyStringConcatenation.handle_node updated_node

/-- leave_ConcatenatedString delegates to handle_node on the updated node. -/
def RemoveEmptyStringConcatenation.leave_ConcatenatedString
    (original_node updated_node : CSTExpr) : CSTExpr :=
  RemoveEmptyStringConcatenation.handle_node updated_node

/-- A concrete registered codemod used by witnesses. -/
def demoRegSecureRandom : RegisteredCodemod :=
  ⟨⟨"secure-random"⟩⟩

/-- A second concrete registered codemod used by witnesses. -/
def demoRegUrlSandbox : RegisteredCodemod :=
  ⟨⟨"url-sandbox"⟩⟩

/-- A concrete registry default set used by witnesses. -/
def demoDefaultCodemods : List RegisteredCodemod :=
  [demoRegSecureRandom, demoRegUrlSandbox]

/-- A concrete metadata value used by witnesses (no inline description). -/
def demoMetadata : Metadata :=
  { name := "secure-random"
    summary := "Replaces random.random with secure random"
    review_guidance := ReviewGuidance.MERGE_WITHOUT_REVIEW }

/-- A transformer pipeline whose rewrite step always succeeds with no
change. -/
def demoTransformer : BaseTransformerPipeline :=
  ⟨fun _ _ _ => Except.ok none⟩

/-- A concrete codemod used by witnesses, built through the constructor with
no explicit extension list. -/
def demoCodemod : BaseCodemod :=
  BaseCodemod.init "pixee" "core_codemods.docs" demoMetadata none
    demoTransformer none

/-- A concrete execution context used by witnesses (all defaults, so
`max_workers` is 1). -/
def demoContext : CodemodExecutionContext :=
  { directory := ⟨"project", ""⟩ }

/-- A concrete Python file used by witnesses. -/
def demoFileA : Path :=
  ⟨"a", ".py"⟩

/-- A second concrete Python file used by witnesses. -/
def demoFileB : Path :=
  ⟨"b", ".py"⟩

/-- A concrete input file list used by witnesses. -/
def demoFiles : List Path :=
  [demoFileA, demoFileB]

/-- A transformer pipeline whose rewrite step faults on demoFileA and
returns no change elsewhere. -/
def faultingTransformer : BaseTransformerPipeline :=
  ⟨fun _ file_context _ =>
    if file_context.file_path = demoFileA then Except.error "boom"
    else Except.ok none⟩

/-- A concrete codemod whose transformer faults on demoFileA. -/
def faultingCodemod : BaseCodemod :=
  BaseCodemod.init "pixee" "core_codemods.docs" demoMetadata none
    faultingTransformer none

/-- A ResultIndex holding no findings at all. -/
def emptyResultSet : ResultSet :=
  ⟨fun _ _ => []⟩

/-- A detector producing the empty ResultIndex for any input. -/
def demoDetector : BaseDetector :=
  ⟨fun _ _ _ => emptyResultSet⟩

/-- A concrete detector-driven codemod whose ResultIndex is empty. -/
def detectorCodemod : BaseCodemod :=
  BaseCodemod.init "pixee" "core_codemods.docs" demoMetadata
    (some demoDetector) demoTransformer none

/-- A concrete documentation-resource environment used by witnesses: the
text of a resource is its module path and file name glued together. -/
def demoDocsResources : DocsResources :=
  fun module file => module ++ ":" ++ file

end Codemodder

namespace Codemodder

/-! Helper lemmas about the worker-pool embedding and the File Execution
Unit, shared by the claim theorems below. -/

/-- Draining any completion schedule preserves the slot invariant (each slot
is empty or holds its own task's result), never unfills a slot, and fills
the slot of every scheduled task. -/
theorem executorSlots_foldl_spec (f : Path → FileContext) (files : List Path)
    (schedule : List Nat) :
    ∀ slots : Nat → Option FileContext,
      (∀ j, slots j = none ∨ slots j = (files[j]?).map f) →
      ((∀ j, schedule.foldl (slotWrite f files) slots j = none ∨
          schedule.foldl (slotWrite f files) slots j = (files[j]?).map f) ∧
        (∀ j, slots j = (files[j]?).map f →
          schedule.foldl (slotWrite f files) slots j = (files[j]?).map f) ∧
        (∀ j ∈ schedule,
          schedule.foldl (slotWrite f files) slots j = (files[j]?).map f)) := by
  induction schedule with
  | nil =>
    intro slots hinv
    refine ⟨hinv, fun j h => h, ?_⟩
    intro j hj
    simp at hj
  | cons i rest ih =>
    intro slots hinv
    simp only [List.foldl_cons]
    have hstep : ∀ j, slotWrite f files slots i j = none ∨
        slotWrite f files slots i j = (files[j]?).map f := by
      intro j
      cases hfi : files[i]? with
      | none =>
        simp only [slotWrite, hfi]
        exact hinv j
      | some file =>
        simp only [slotWrite, hfi]
        by_cases hji : j = i
        · subst hji
          right
          rw [Function.update_same, hfi]
          rfl
        · rw [Function.update_noteq hji]
          exact hinv j
    have hkeep : ∀ j, slots j = (files[j]?).map f →
        slotWrite f files slots i j = (files[j]?).map f := by
      intro j hj
      cases hfi : files[i]? with
      | none =>
        simp only [slotWrite, hfi]
        exact hj
      | some file =>
        simp only [slotWrite, hfi]
        by_cases hji : j = i
        · subst hji
          rw [Function.update_same, hfi]
          rfl
        · rw [Function.update_noteq hji]
          exact hj
    have hself : slotWrite f files slots i i = (files[i]?).map f := by
      cases hfi : files[i]? with
      | none =>
        simp only [slotWrite, hfi]
        rcases hinv i with h | h
        · rw [h]
          rfl
        · rw [hfi] at h
          exact h
      | some file =>
        simp only [slotWrite, hfi]
        rw [Function.update_same]
        rfl
    obtain ⟨ih1, ih2, ih3⟩ := ih (slotWrite f files slots i) hstep
    refine ⟨ih1, fun j hj => ih2 j (hkeep j hj), ?_⟩
    intro j hj
    rcases List.mem_cons.mp hj with rfl | hj
    · exact ih2 j hself
    · exact ih3 j hj

/-- Every slot of the drained store is empty or correct. -/
theorem executorSlots_inv (f : Path → FileContext) (files : List Path)
    (schedule : List Nat) (j : Nat) :
    executorSlots f files schedule j = none ∨
      executorSlots f files schedule j = (files[j]?).map f :=
  (executorSlots_foldl_spec f files schedule (fun _ => none)
    (fun _ => Or.inl rfl)).1 j

/-- A scheduled task's slot holds exactly its own result. -/
theorem executorSlots_covered (f : Path → FileContext) (files : List Path)
    (schedule : List Nat) (j : Nat) (hj : j ∈ schedule) :
    executorSlots f files schedule j = (files[j]?).map f :=
  (executorSlots_foldl_spec f files schedule (fun _ => none)
    (fun _ => Or.inl rfl)).2.2 j hj

/-- Positional read-out of a fully correct slot store is the input map. -/
theorem range_filterMap_getElem (f : Path → FileContext) (files : List Path) :
    (List.range files.length).filterMap (fun i => (files[i]?).map f) =
      files.map f := by
  induction files with
  | nil => rfl
  | cons x xs ih =>
    rw [List.length_cons, List.range_succ_eq_map, List.filterMap_cons]
    simp only [List.getElem?_cons_zero, Option.map_some', List.filterMap_map]
    rw [List.map_cons]
    congr 1
    have hfun : ((fun i => ((x :: xs)[i]?).map f) ∘ Nat.succ) =
        fun i => (xs[i]?).map f := by
      funext i
      simp
    rw [hfun, ih]

/-- The join of `executor.map` equals the plain input-order map whenever the
schedule completes every task, whatever the completion order. -/
theorem executorMap_eq_map (f : Path → FileContext) (files : List Path)
    (schedule : List Nat)
    (hcov : ∀ i < files.length, i ∈ schedule) :
    executorMap f files schedule = files.map f := by
  unfold executorMap
  rw [← range_filterMap_getElem f files]
  exact List.filterMap_congr (fun i hi =>
    executorSlots_covered f files schedule i (hcov i (List.mem_range.mp hi)))

/-- Anything the pool joins is the File Execution Unit's result for one of
the input files, under any schedule. -/
theorem executorMap_mem (f : Path → FileContext) (files : List Path)
    (schedule : List Nat) (x : FileContext)
    (hx : x ∈ executorMap f files schedule) : ∃ p ∈ files, x = f p := by
  unfold executorMap at hx
  obtain ⟨i, _, hslot⟩ := List.mem_filterMap.mp hx
  rcases executorSlots_inv f files schedule i with h | h
  · rw [h] at hslot
    cases hslot
  · rw [h] at hslot
    obtain ⟨p, hp, hfp⟩ := Option.map_eq_some'.mp hslot
    exact ⟨p, List.getElem?_mem hp, hfp.symm⟩

/-- Left fold of list append equals the flattened map. -/
theorem foldl_append_flatten {α β : Type} (g : α → List β) (l : List α) :
    ∀ acc : List β,
      l.foldl (fun acc' x => acc' ++ g x) acc = acc ++ (l.map g).flatten := by
  induction l with
  | nil =>
    intro acc
    simp
  | cons x xs ih =>
    intro acc
    simp [ih, List.append_assoc]

/-- The File Execution Unit always records the file it was given. -/
theorem process_file_file_path (self : BaseCodemod) (filename : Path)
    (context : CodemodExecutionContext) (results : Option ResultSet)
    (rules : List String) :
    (self._process_file filename context results rules).file_path =
      filename := by
  simp only [BaseCodemod._process_file]
  split <;> simp [FileContext.add_result]

/-- Without a ResultIndex the File Execution Unit hands the transformer no
findings. -/
theorem process_file_findings_none (self : BaseCodemod) (filename : Path)
    (context : CodemodExecutionContext) (rules : List String) :
    (self._process_file filename context none rules).findings = none := by
  simp only [BaseCodemod._process_file]
  split <;> simp_all [FileContext.add_result]

/-- With a ResultIndex the File Execution Unit hands the transformer the
rule-order concatenation of the per-rule findings for this file. -/
theorem process_file_findings_some (self : BaseCodemod) (filename : Path)
    (context : CodemodExecutionContext) (rs : ResultSet)
    (rules : List String) :
    (self._process_file filename context (some rs) rules).findings =
      some ((rules.map (fun rule =>
        rs.results_for_rule_and_file context rule filename)).flatten) := by
  simp only [BaseCodemod._process_file]
  split <;> simp_all [FileContext.add_result, foldl_append_flatten]

/-- A transformer that reports no change leaves the FileContext without
ChangeSet and without failure note. -/
theorem process_file_no_change (self : BaseCodemod) (filename : Path)
    (context : CodemodExecutionContext) (results : Option ResultSet)
    (rules : List String)
    (hok : ∀ fc fnd, self.transformer.run context fc fnd =
      Except.ok (none : Option ChangeSet)) :
    (self._process_file filename context results rules).results = [] ∧
    (self._process_file filename context results rules).failures = [] := by
  simp [BaseCodemod._process_file, BaseTransformerPipeline.apply, hok]

/-- A faulting transformer is recovered: the FileContext comes back with no
ChangeSet and the failure note attached. -/
theorem process_file_fault (self : BaseCodemod) (filename : Path)
    (context : CodemodExecutionContext) (results : Option ResultSet)
    (rules : List String) (msg : String)
    (hfault : ∀ fc fnd, fc.file_path = filename →
      self.transformer.run context fc fnd = Except.error msg) :
    (self._process_file filename context results rules).results = [] ∧
    (self._process_file filename context results rules).failures = [msg] := by
  simp [BaseCodemod._process_file, BaseTransformerPipeline.apply, hfault]

/-- Changing only `max_workers` never changes the ExecutionContext fields
the File Execution Unit reads. -/
theorem withMaxWorkers_fields (context : CodemodExecutionContext) (w : Nat) :
    (context.withMaxWorkers w).directory = context.directory ∧
    (context.withMaxWorkers w).path_include = context.path_include ∧
    (context.withMaxWorkers w).path_exclude = context.path_exclude :=
  ⟨rfl, rfl, rfl⟩

/-- The File Execution Unit is insensitive to `max_workers` as long as the
transformer contract is (spec section 4.3: transformers are deterministic in
their declared inputs). -/
theorem process_file_withMaxWorkers (self : BaseCodemod) (filename : Path)
    (context : CodemodExecutionContext) (results : Option ResultSet)
    (rules : List String) (w : Nat)
    (htr : ∀ fc fnd, self.transformer.run (context.withMaxWorkers w) fc fnd =
      self.transformer.run context fc fnd) :
    self._process_file filename (context.withMaxWorkers w) results rules =
      self._process_file filename context results rules := by
  have hdir : (context.withMaxWorkers w).directory = context.directory := rfl
  have hinc : (context.withMaxWorkers w).path_include = context.path_include :=
    rfl
  have hexc : (context.withMaxWorkers w).path_exclude = context.path_exclude :=
    rfl
  simp only [BaseCodemod._process_file, BaseTransformerPipeline.apply,
    ResultSet.results_for_rule_and_file, hdir, hinc, hexc, htr]

/-- With a covering schedule the outcome list is the input-order map of the
File Execution Unit over the filtered files. -/
theorem applyOutcomes_eq_map (self : BaseCodemod)
    (context : CodemodExecutionContext) (files : List Path)
    (rules : List String) (schedule : List Nat)
    (hcov : ∀ i < (self.filteredFiles files).length, i ∈ schedule) :
    self.applyOutcomes context files rules schedule =
      (self.filteredFiles files).map
        (fun filename => self._process_file filename context
          (self.detectorResults context files) rules) := by
  unfold BaseCodemod.applyOutcomes
  exact executorMap_eq_map _ _ _ hcov

/-- Every joined outcome is the File Execution Unit's result for one of the
filtered files. -/
theorem applyOutcomes_mem (self : BaseCodemod)
    (context : CodemodExecutionContext) (files : List Path)
    (rules : List String) (schedule : List Nat) (fc : FileContext)
    (hfc : fc ∈ self.applyOutcomes context files rules schedule) :
    ∃ p ∈ self.filteredFiles files,
      fc = self._process_file p context
        (self.detectorResults context files) rules := by
  unfold BaseCodemod.applyOutcomes at hfc
  exact executorMap_mem _ _ _ _ hfc

/-- Surviving the extension filter means the file's suffix is eligible
(whenever the extension list is non-empty, which the constructor
guarantees). -/
theorem filteredFiles_suffix (self : BaseCodemod) (files : List Path)
    (hne : self.default_extensions ≠ []) (p : Path)
    (hp : p ∈ self.filteredFiles files) :
    p.suffix ∈ self.default_extensions := by
  unfold BaseCodemod.filteredFiles at hp
  rw [if_neg (by simp only [List.isEmpty_iff]; exact hne)] at hp
  obtain ⟨_, hcond⟩ := List.mem_filter.mp hp
  simpa using hcond

end Codemodder

namespace Codemodder

/-- C1: for every include list I and exclude list E with at most one of them
non-empty, codemod selection with both empty returns exactly the default
codemod set keyed by name; with I non-empty exactly the default codemods
whose name is in I; with E non-empty exactly the default codemods whose name
is not in E; and names in I or E that match no registered codemod are
silently ignored — match_codemods is total and simply filters, so an unknown
name never raises. -/
theorem match_codemods_selection (DEFAULT_CODEMODS : List RegisteredCodemod)
    (codemod_include codemod_exclude : List String)
    (hIE : codemod_include = [] ∨ codemod_exclude = []) :
    (codemod_include = [] → codemod_exclude = [] →
      match_codemods DEFAULT_CODEMODS codemod_include codemod_exclude =
        DEFAULT_CODEMODS.map
          (fun codemod => (codemod.METADATA.NAME, codemod))) ∧
    (codemod_include ≠ [] →
      match_codemods DEFAULT_CODEMODS codemod_include codemod_exclude =
        (DEFAULT_CODEMODS.filter
            (fun codemod =>
              codemod_include.contains codemod.METADATA.NAME)).map
          (fun codemod => (codemod.METADATA.NAME, codemod))) ∧
    (codemod_exclude ≠ [] →
      match_codemods DEFAULT_CODEMODS codemod_include codemod_exclude =
        (DEFAULT_CODEMODS.filter
            (fun codemod =>
              !codemod_exclude.contains codemod.METADATA.NAME)).map
          (fun codemod => (codemod.METADATA.NAME, codemod))) := by
  refine ⟨?_, ?_, ?_⟩
  · intro h1 h2
    subst h1
    subst h2
    rfl
  · intro h1
    have h2 : codemod_exclude = [] := hIE.resolve_left h1
    subst h2
    simp [match_codemods, List.isEmpty_iff, h1]
  · intro h2
    have h1 : codemod_include = [] := by
      rcases hIE with h | h
      · exact h
      · exact absurd h h2
    subst h1
    simp [match_codemods, List.isEmpty_iff, h2]

/-- Witness for C1: a concrete include selection containing one registered
and one unknown name keeps exactly the registered codemod and raises no
error. -/
theorem match_codemods_selection_witness :
    match_codemods demoDefaultCodemods
      ["secure-random", "never-registered"] [] =
      [("secure-random", demoRegSecureRandom)] := by
  have h := (match_codemods_selection demoDefaultCodemods
    ["secure-random", "never-registered"] [] (Or.inr rfl)).2.1 (by decide)
  rw [h]
  decide

/-- C2: a fault raised by the transformer while processing file A is
recovered at the File Execution Unit boundary: A is still recorded in the
outcome list with no ChangeSet (and the failure note attached), and every
other file B in the same run is still processed and appears in the outcome
list, so the codemod invocation completes with partial success. -/
theorem transformer_fault_isolated (self : BaseCodemod)
    (context : CodemodExecutionContext) (files : List Path)
    (rules : List String) (schedule : List Nat) (fileA : Path) (msg : String)
    (hcov : ∀ i < (self.filteredFiles files).length, i ∈ schedule)
    (hA : fileA ∈ self.filteredFiles files)
    (hfault : ∀ fc fnd, fc.file_path = fileA →
      self.transformer.run context fc fnd = Except.error msg) :
    (∃ fc ∈ self.applyOutcomes context files rules schedule,
      fc.file_path = fileA ∧ fc.results = [] ∧ fc.failures = [msg]) ∧
    (∀ fileB ∈ self.filteredFiles files,
      ∃ fc ∈ self.applyOutcomes context files rules schedule,
        fc.file_path = fileB) := by
  have hmap := applyOutcomes_eq_map self context files rules schedule hcov
  constructor
  · refine ⟨self._process_file fileA context
      (self.detectorResults context files) rules, ?_, ?_, ?_, ?_⟩
    · rw [hmap]
      exact List.mem_map.mpr ⟨fileA, hA, rfl⟩
    · exact process_file_file_path self fileA context
        (self.detectorResults context files) rules
    · exact (process_file_fault self fileA context
        (self.detectorResults context files) rules msg hfault).1
    · exact (process_file_fault self fileA context
        (self.detectorResults context files) rules msg hfault).2
  · intro fileB hB
    refine ⟨self._process_file fileB context
      (self.detectorResults context files) rules, ?_, ?_⟩
    · rw [hmap]
      exact List.mem_map.mpr ⟨fileB, hB, rfl⟩
    · exact process_file_file_path self fileB context
        (self.detectorResults context files) rules

/-- Witness for C2: a concrete codemod whose transformer faults on a.py
still reports a.py (without ChangeSet, with the failure note) and still
reports every other file of the run. -/
theorem transformer_fault_isolated_witness :
    (∃ fc ∈ faultingCodemod.applyOutcomes demoContext demoFiles
        ["secure-random"] [0, 1],
      fc.file_path = demoFileA ∧ fc.results = [] ∧ fc.failures = ["boom"]) ∧
    (∀ fileB ∈ faultingCodemod.filteredFiles demoFiles,
      ∃ fc ∈ faultingCodemod.applyOutcomes demoContext demoFiles
        ["secure-random"] [0, 1], fc.file_path = fileB) :=
  transformer_fault_isolated faultingCodemod demoContext demoFiles
    ["secure-random"] [0, 1] demoFileA "boom" (by decide) (by decide)
    (fun fc fnd h => by
      simp [faultingCodemod, BaseCodemod.init, faultingTransformer, h])

/-- C3 (code bug): the claim says the per-file fan-out runs on a pool sized
by the execution context's max_workers setting (CLI default 1), but line 179
of base_codemod.py constructs `ThreadPoolExecutor()` with no argument, so
the pool gets the library default `min(32, os.cpu_count() + 4)` workers —
e.g. 8 workers on a 4-CPU machine while `max_workers` is 1, contradicting
the method's own docstring and the adjacent debug log line. -/
theorem apply_pool_size_ignores_max_workers :
    ({} : CLIArgs).max_workers = 1 ∧
    demoContext.max_workers = 1 ∧
    BaseCodemod.applyPoolSize demoCodemod demoContext 4 = 8 ∧
    BaseCodemod.applyPoolSize demoCodemod demoContext 4 ≠
      demoContext.max_workers :=
  ⟨rfl, rfl, rfl, by decide⟩

/-- C4: the joined outcome list is ordered like the input file list
whatever the completion order, so two runs with identical inputs and any
max_workers values produce identical ordered outcome (hence ChangeSet)
lists, given the contract that transformer and detector do not read
max_workers. -/
theorem apply_deterministic_join_order (self : BaseCodemod)
    (context : CodemodExecutionContext) (files : List Path)
    (rules : List String) (w₁ w₂ : Nat) (s₁ s₂ : List Nat)
    (hcov₁ : ∀ i < (self.filteredFiles files).length, i ∈ s₁)
    (hcov₂ : ∀ i < (self.filteredFiles files).length, i ∈ s₂)
    (htr : ∀ w fc fnd,
      self.transformer.run (context.withMaxWorkers w) fc fnd =
        self.transformer.run context fc fnd)
    (hdet : ∀ w, self.detectorResults (context.withMaxWorkers w) files =
      self.detectorResults context files) :
    self.applyOutcomes (context.withMaxWorkers w₁) files rules s₁ =
      self.applyOutcomes (context.withMaxWorkers w₂) files rules s₂ ∧
    self.applyOutcomes context files rules s₁ =
      (self.filteredFiles files).map
        (fun filename => self._process_file filename context
          (self.detectorResults context files) rules) := by
  have hone : ∀ (w : Nat) (s : List Nat),
      (∀ i < (self.filteredFiles files).length, i ∈ s) →
      self.applyOutcomes (context.withMaxWorkers w) files rules s =
        (self.filteredFiles files).map
          (fun filename => self._process_file filename context
            (self.detectorResults context files) rules) := by
    intro w s hcov
    rw [applyOutcomes_eq_map self (context.withMaxWorkers w) files rules s
      hcov, hdet w]
    have hfun : (fun filename => self._process_file filename
        (context.withMaxWorkers w) (self.detectorResults context files)
        rules) =
        (fun filename => self._process_file filename context
          (self.detectorResults context files) rules) :=
      funext (fun p => process_file_withMaxWorkers self p context
        (self.detectorResults context files) rules w (htr w))
    rw [hfun]
  exact ⟨(hone w₁ s₁ hcov₁).trans (hone w₂ s₂ hcov₂).symm,
    applyOutcomes_eq_map self context files rules s₁ hcov₁⟩

/-- Witness for C4: with max_workers 1 versus 4 and opposite completion
orders, the concrete run joins identical ordered outcome lists. -/
theorem apply_deterministic_join_order_witness :
    demoCodemod.applyOutcomes (demoContext.withMaxWorkers 1) demoFiles
      ["secure-random"] [1, 0] =
      demoCodemod.applyOutcomes (demoContext.withMaxWorkers 4) demoFiles
        ["secure-random"] [0, 1] :=
  (apply_deterministic_join_order demoCodemod demoContext demoFiles
    ["secure-random"] 1 4 [1, 0] [0, 1] (by decide) (by decide)
    (fun _ _ _ => rfl) (fun _ => rfl)).1

/-- C5: the File Execution Unit returns a FileContext unconditionally (it
always records the file it was given); in particular with a ResultIndex
holding zero findings for the file and a transformer reporting no change,
the returned FileContext has no ChangeSet and empty findings, yet it still
appears in the codemod's outcome list. -/
theorem process_file_accounts_file (self : BaseCodemod)
    (context : CodemodExecutionContext) (files : List Path)
    (rules : List String) (schedule : List Nat) (filename : Path)
    (rs : ResultSet)
    (hdet : self.detectorResults context files = some rs)
    (hzero : ∀ rule ∈ rules,
      rs.results_for_rule_and_file context rule filename = [])
    (hok : ∀ fc fnd, self.transformer.run context fc fnd =
      Except.ok (none : Option ChangeSet))
    (hmem : filename ∈ self.filteredFiles files)
    (hcov : ∀ i < (self.filteredFiles files).length, i ∈ schedule) :
    (∀ (results : Option ResultSet) (rules' : List String),
      (self._process_file filename context results rules').file_path =
        filename) ∧
    (self._process_file filename context (some rs) rules).results = [] ∧
    (self._process_file filename context (some rs) rules).findings =
      some [] ∧
    self._process_file filename context (some rs) rules ∈
      self.applyOutcomes context files rules schedule := by
  refine ⟨fun results rules' =>
      process_file_file_path self filename context results rules',
    (process_file_no_change self filename context (some rs) rules hok).1,
    ?_, ?_⟩
  · rw [process_file_findings_some]
    congr 1
    rw [List.flatten_eq_nil_iff]
    intro l hl
    obtain ⟨rule, hrule, hrl⟩ := List.mem_map.mp hl
    rw [← hrl]
    exact hzero rule hrule
  · rw [applyOutcomes_eq_map self context files rules schedule hcov, hdet]
    exact List.mem_map.mpr ⟨filename, hmem, rfl⟩

/-- Witness for C5: a concrete detector-driven codemod with an empty
ResultIndex still accounts a.py in the outcome list, with no ChangeSet. -/
theorem process_file_accounts_file_witness :
    (detectorCodemod._process_file demoFileA demoContext
      (some emptyResultSet) ["secure-random"]).results = [] ∧
    detectorCodemod._process_file demoFileA demoContext
      (some emptyResultSet) ["secure-random"] ∈
      detectorCodemod.applyOutcomes demoContext demoFiles
        ["secure-random"] [0, 1] := by
  have h := process_file_accounts_file detectorCodemod demoContext demoFiles
    ["secure-random"] [0, 1] demoFileA emptyResultSet rfl
    (fun rule hrule => rfl) (fun fc fnd => rfl) (by decide) (by decide)
  exact ⟨h.2.1, h.2.2.2⟩

/-- C6: the findings handed to the transformer are absent exactly when the
invocation has no ResultIndex; with a ResultIndex they are the single
ordered list obtained by concatenating, over the rule names in their given
order, the index's findings for (rule, file), each per-rule list kept in its
stored order. -/
theorem process_file_findings_spec (self : BaseCodemod) (filename : Path)
    (context : CodemodExecutionContext) (rules : List String) :
    (∀ results : Option ResultSet,
      ((self._process_file filename context results rules).findings = none ↔
        results = none)) ∧
    (∀ rs : ResultSet,
      (self._process_file filename context (some rs) rules).findings =
        some ((rules.map (fun rule =>
          rs.results_for_rule_and_file context rule filename)).flatten)) := by
  constructor
  · intro results
    cases results with
    | none => simp [process_file_findings_none]
    | some rs => simp [process_file_findings_some]
  · intro rs
    exact process_file_findings_some self filename context rs rules

/-- C7: apply hands the File Execution Unit only files whose extension is
among the codemod's eligible extensions; a codemod constructed without an
explicit extension list gets the single default extension ".py" (and the
constructor never leaves the list empty); files with other extensions
produce no outcome for the codemod. -/
theorem apply_respects_extensions (origin docs_path : String)
    (metadata : Metadata) (detector : Option BaseDetector)
    (transformer : BaseTransformerPipeline) (exts : Option (List String))
    (self : BaseCodemod) (context : CodemodExecutionContext)
    (files : List Path) (rules : List String) (schedule : List Nat)
    (hne : self.default_extensions ≠ []) :
    (BaseCodemod.init origin docs_path metadata detector transformer
      none).default_extensions = [".py"] ∧
    (BaseCodemod.init origin docs_path metadata detector transformer
      exts).default_extensions ≠ [] ∧
    (∀ p ∈ self.filteredFiles files, p.suffix ∈ self.default_extensions) ∧
    (∀ fc ∈ self.applyOutcomes context files rules schedule,
      fc.file_path.suffix ∈ self.default_extensions) ∧
    (∀ p ∈ files, p.suffix ∉ self.default_extensions →
      ∀ fc ∈ self.applyOutcomes context files rules schedule,
        fc.file_path ≠ p) := by
  have hout : ∀ fc ∈ self.applyOutcomes context files rules schedule,
      fc.file_path.suffix ∈ self.default_extensions := by
    intro fc hfc
    obtain ⟨p, hp, hfceq⟩ :=
      applyOutcomes_mem self context files rules schedule fc hfc
    rw [hfceq, process_file_file_path]
    exact filteredFiles_suffix self files hne p hp
  refine ⟨rfl, ?_, filteredFiles_suffix self files hne, hout, ?_⟩
  · cases exts with
    | none => simp [BaseCodemod.init]
    | some l =>
      cases l with
      | nil => simp [BaseCodemod.init]
      | cons x xs => simp [BaseCodemod.init]
  · intro p hp hnp fc hfc heq
    exact hnp (heq ▸ hout fc hfc)

/-- Witness for C7: the demo codemod built without an extension list has
exactly [".py"], and its extension list is non-empty as the theorem
requires. -/
theorem apply_respects_extensions_witness :
    demoCodemod.default_extensions ≠ [] ∧
    (BaseCodemod.init "pixee" "core_codemods.docs" demoMetadata none
      demoTransformer none).default_extensions = [".py"] :=
  ⟨by decide, (apply_respects_extensions "pixee" "core_codemods.docs"
    demoMetadata none demoTransformer (some [".py"]) demoCodemod demoContext
    demoFiles ["secure-random"] [0, 1] (by decide)).1⟩

/-- C8: after one codemod's apply, the aggregator has been written exactly
once for that codemod, by the orchestrator only and only after every
per-file worker event, under the key origin:language/name. -/
theorem aggregator_single_write_by_orchestrator (self : BaseCodemod)
    (context : CodemodExecutionContext) (files : List Path)
    (rules : List String) (schedule : List Nat) :
    ((self._apply context files rules schedule).aggregator =
      context.aggregator ++
        [(self.id, self.applyOutcomes context files rules schedule)]) ∧
    self.id = self.origin ++ ":" ++ self._metadata.language ++ "/" ++
      self._metadata.name ∧
    (self.applyTrace context files rules schedule).countP
      ApplyEvent.isAggregatorWrite = 1 ∧
    (∃ pre, self.applyTrace context files rules schedule =
      pre ++ [ApplyEvent.aggregatorWrite Emitter.orchestrator self.id] ∧
      ∀ e ∈ pre, ∃ i file,
        e = ApplyEvent.fileProcessed (Emitter.worker i) file) := by
  have hpre : ∀ e ∈ (schedule.filterMap (fun i =>
      ((self.filteredFiles files)[i]?).map
        (fun file => ApplyEvent.fileProcessed (Emitter.worker i) file))),
      ∃ i file, e = ApplyEvent.fileProcessed (Emitter.worker i) file := by
    intro e he
    obtain ⟨i, _, hg⟩ := List.mem_filterMap.mp he
    obtain ⟨file, _, hfe⟩ := Option.map_eq_some'.mp hg
    exact ⟨i, file, hfe.symm⟩
  refine ⟨rfl, rfl, ?_, ?_⟩
  · unfold BaseCodemod.applyTrace
    rw [List.countP_append]
    have h0 : (schedule.filterMap (fun i =>
        ((self.filteredFiles files)[i]?).map
          (fun file => ApplyEvent.fileProcessed (Emitter.worker i)
            file))).countP ApplyEvent.isAggregatorWrite = 0 := by
      rw [List.countP_eq_zero]
      intro e he
      obtain ⟨i, file, hfe⟩ := hpre e he
      subst hfe
      simp [ApplyEvent.isAggregatorWrite]
    rw [h0]
    simp [ApplyEvent.isAggregatorWrite, List.countP_cons]
  · exact ⟨_, rfl, hpre⟩

/-- C9: handle_node, for any operator, returns the right operand when only
the left operand is an empty-raw-value SimpleString; the left operand when
only the right one is; the literal SimpleString of two double quotes when
both are; and the node unchanged otherwise — identically for binary
operations and concatenated strings. -/
theorem handle_node_cases (left right : CSTExpr) (op : BinaryOperator) :
    (isEmptySimpleString left = true → isEmptySimpleString right = false →
      RemoveEmptyStringConcatenation.handle_node
        (CSTExpr.binaryOperation left op right) = right ∧
      RemoveEmptyStringConcatenation.handle_node
        (CSTExpr.concatenatedString left right) = right) ∧
    (isEmptySimpleString left = false → isEmptySimpleString right = true →
      RemoveEmptyStringConcatenation.handle_node
        (CSTExpr.binaryOperation left op right) = left ∧
      RemoveEmptyStringConcatenation.handle_node
        (CSTExpr.concatenatedString left right) = left) ∧
    (isEmptySimpleString left = true → isEmptySimpleString right = true →
      RemoveEmptyStringConcatenation.handle_node
        (CSTExpr.binaryOperation left op right) =
        CSTExpr.simpleString emptyStringLiteral ∧
      RemoveEmptyStringConcatenation.handle_node
        (CSTExpr.concatenatedString left right) =
        CSTExpr.simpleString emptyStringLiteral) ∧
    (isEmptySimpleString left = false → isEmptySimpleString right = false →
      RemoveEmptyStringConcatenation.handle_node
        (CSTExpr.binaryOperation left op right) =
        CSTExpr.binaryOperation left op right ∧
      RemoveEmptyStringConcatenation.handle_node
        (CSTExpr.concatenatedString left right) =
        CSTExpr.concatenatedString left right) := by
  refine ⟨?_, ?_, ?_, ?_⟩ <;> intro h1 h2 <;>
    simp [RemoveEmptyStringConcatenation.handle_node, handleLR, h1, h2]

/-- Witness for C9: an empty double-quoted string plus a name collapses to
the name, for both node kinds. -/
theorem handle_node_cases_witness :
    isEmptySimpleString (CSTExpr.simpleString emptyStringLiteral) = true ∧
    isEmptySimpleString (CSTExpr.nameExpr "x") = false ∧
    (RemoveEmptyStringConcatenation.handle_node
      (CSTExpr.binaryOperation (CSTExpr.simpleString emptyStringLiteral)
        BinaryOperator.Add (CSTExpr.nameExpr "x")) = CSTExpr.nameExpr "x" ∧
    RemoveEmptyStringConcatenation.handle_node
      (CSTExpr.concatenatedString (CSTExpr.simpleString emptyStringLiteral)
        (CSTExpr.nameExpr "x")) = CSTExpr.nameExpr "x") :=
  ⟨by decide, by decide,
    (handle_node_cases (CSTExpr.simpleString emptyStringLiteral)
      (CSTExpr.nameExpr "x") BinaryOperator.Add).1 (by decide) (by decide)⟩

/-- C10: the description accessor returns the inline metadata description
whenever one is provided; when it is None it returns the documentation
resource origin_python_name.md whose language segment is the literal
"python" regardless of the codemod's language tag; and the value is
memoized, so a repeated access returns the same string from the cache
without re-reading the resource. -/
theorem description_resolution_memoized (self : BaseCodemod)
    (res : DocsResources) :
    (∀ d, self._metadata.description = some d →
      self.description_value res = d) ∧
    (self._metadata.description = none →
      self.description_value res =
        res self.docs_module_path
          (self.origin ++ "_python_" ++ self.name ++ ".md")) ∧
    (∀ language, (self.withLanguage language).description_value res =
      self.description_value res) ∧
    (∀ st v st', self.description_access res st = (v, st') →
      self.description_access res st' = (v, st')) := by
  refine ⟨?_, ?_, ?_, ?_⟩
  · intro d hd
    simp [BaseCodemod.description_value, hd]
  · intro hd
    simp [BaseCodemod.description_value, hd]
  · intro language
    simp [BaseCodemod.description_value, BaseCodemod.withLanguage,
      BaseCodemod.name]
  · intro st v st' h
    cases hc : st.cached with
    | some w =>
      simp [BaseCodemod.description_access, hc] at h
      obtain ⟨hv, hst⟩ := h
      subst hv
      subst hst
      simp [BaseCodemod.description_access, hc]
    | none =>
      simp [BaseCodemod.description_access, hc] at h
      obtain ⟨hv, hst⟩ := h
      subst hst
      simp [BaseCodemod.description_access, hv]

/-- Witness for C10: the demo codemod has no inline description, so its
description is the text of the resource pixee_python_secure-random.md,
with the literal "python" segment. -/
theorem description_resolution_memoized_witness :
    demoCodemod._metadata.description = none ∧
    demoCodemod.description_value demoDocsResources =
      "core_codemods.docs:pixee_python_secure-random.md" := by
  have h := (description_resolution_memoized demoCodemod
    demoDocsResources).2.1 rfl
  refine ⟨rfl, ?_⟩
  rw [h]
  rfl

end Codemodder
